import Mathlib

/-!
Verification development for the `mdpopups` module
(`src/st3/mdpopups/__init__.py`): a shallow embedding of its cache
management, entity sanitizer, visibility guard, render fallback and
phantom reconciliation, with theorems checking the specification's
claims against the embedded code.

Modelling conventions:
* Python `OrderedDict` caches become association lists `List (String × V)`
  (insertion order is list order, oldest first);
* timestamps (`time.time()` seconds) become `Int`;
* a retrieved Sublime setting becomes `Option SettingVal` (`none` when the
  setting is absent and the lookup default applies);
* fallible external stages (the markdown library, resource loading) become
  `Except Unit String` values;
* the display primitive (the Sublime view API) becomes an explicit event
  log plus a fresh-id counter.
-/

namespace Mdpopups

/-- A value read from the Sublime settings store: an integer (Python `bool`
is an `int` subclass, so it is absorbed here as 0/1), or any non-integer
value (`None`, strings, ...). -/
inductive SettingVal where
  | vint (n : Int)
  | vother
deriving DecidableEq

/-- Embeds the limit normalization of `_prune_cache`
(`if limit is None or not isinstance(limit, int) or limit <= 0: limit = 10`),
with `none` for an absent setting (the `_get_setting` default `10`). -/
def cacheLimit : Option SettingVal → Int
  | some (SettingVal.vint n) => if n ≤ 0 then 10 else n
  | some SettingVal.vother => 10
  | none => 10

/-- Embeds the refresh-time normalization of `_is_cache_expired`
(`if not isinstance(delta_time, int) or delta_time < 0: delta_time = 30`),
with `none` for an absent setting (the `_get_setting` default `30`). -/
def refreshMinutes : Option SettingVal → Int
  | some (SettingVal.vint n) => if n < 0 then 30 else n
  | some SettingVal.vother => 30
  | none => 30

/-- Embeds `_is_cache_expired`:
`delta_time == 0 or (time.time() - cache_time) >= (delta_time * 60)`. -/
def isCacheExpired (setting : Option SettingVal) (now cacheTime : Int) : Bool :=
  let d := refreshMinutes setting
  decide (d = 0) || decide (now - cacheTime ≥ d * 60)

/-- `OrderedDict.__setitem__`: an existing key keeps its position and gets the
new value; a new key is appended at the end (the newest end). -/
def odInsert {V : Type} (k : String) (v : V) : List (String × V) → List (String × V)
  | [] => [(k, v)]
  | (k', v') :: rest => if k' = k then (k, v) :: rest else (k', v') :: odInsert k v rest

/-- The loop `while len(cache) >= limit: cache.popitem(last=True)` of
`_prune_cache`.  `popitem(last=True)` removes the item at the newest end,
hence `List.dropLast`.  The fuel argument makes the loop structural; it is
always called with enough fuel (`length + 1`) for the normalized limit
(which is at least 1), mirroring termination of the Python loop. -/
def pruneAux {V : Type} : Nat → Int → List (String × V) → List (String × V)
  | 0, _, c => c
  | fuel + 1, limit, c =>
    if (c.length : Int) ≥ limit then pruneAux fuel limit c.dropLast else c

/-- Embeds `_prune_cache` acting on one of the two caches, with the limit
already normalized. -/
def pruneCache {V : Type} (limit : Int) (c : List (String × V)) : List (String × V) :=
  pruneAux (c.length + 1) limit c

/-- One cache insertion as performed by `_get_scheme` /
`_get_sublime_highlighter`: `_prune_cache()` followed by
`cache[scheme] = value`. -/
def cacheInsert {V : Type} (limitSetting : Option SettingVal) (k : String) (v : V)
    (c : List (String × V)) : List (String × V) :=
  odInsert k v (pruneCache (cacheLimit limitSetting) c)

/-- The data cached per scheme by `_get_scheme`: the `use_pygments`
variable of the cached `Scheme2CSS` object, the cached user CSS, and the
insertion timestamp. -/
structure SchemeEntry where
  usePygments : Bool
  userCss : String
  insertedAt : Int
deriving DecidableEq

/-- Embeds the hit path of `_get_scheme` (lines 159-167): a cached entry is
kept (`some`) unless the entry is expired or
`obj.variables.get('use_pygments', True) != (not settings.get('mdpopups.use_sublime_highlighter', False))`,
in which case `obj` is reset to `None` (`none` here) and the scheme is rebuilt. -/
def schemeLookup (refreshSetting : Option SettingVal) (useSublimeHighlighter : Bool)
    (now : Int) (e : SchemeEntry) : Option (Bool × String) :=
  if isCacheExpired refreshSetting now e.insertedAt
      || (e.usePygments != !useSublimeHighlighter) then
    none
  else
    some (e.usePygments, e.userCss)

/-- The claim's expiry condition, stated from the spec's words: `0` means
"always expire"; otherwise the entry expires when `now - inserted_at` is at
least the configured minutes; invalid or negative configured values fall
back to a default of 30 (the claim's explicit `0` carve-out takes priority
over its "non-positive" phrasing, since it states that `0` always expires). -/
def claimExpired (setting : Option SettingVal) (now insertedAt : Int) : Prop :=
  refreshMinutes setting = 0 ∨ now - insertedAt ≥ refreshMinutes setting * 60

/-- The claim's miss condition: expired, or the cached highlighting-backend
boolean (the sublime-highlighter backend was active, i.e. `use_pygments` was
false) differs from the current `use_sublime_highlighter` setting. -/
def claimMiss (setting : Option SettingVal) (useSublimeHighlighter : Bool)
    (now : Int) (e : SchemeEntry) : Prop :=
  claimExpired setting now e.insertedAt ∨ (!e.usePygments) ≠ useSublimeHighlighter

/-- `\w` of the bad-entity pattern `RE_BAD_ENTITIES` (word characters; the
ASCII reading suffices for every input exercised here). -/
def isWordChar (c : Char) : Bool :=
  c.isAlphanum || c == '_'

/-- The negative lookahead `(?!amp;|lt;|gt;|nbsp;)` of `RE_BAD_ENTITIES`:
true when the text after `&` starts with one of the four kept entities. -/
def lookaheadBlocked (rest : List Char) : Bool :=
  "amp;".data.isPrefixOf rest || "lt;".data.isPrefixOf rest ||
    "gt;".data.isPrefixOf rest || "nbsp;".data.isPrefixOf rest

/-- One match attempt of
`RE_BAD_ENTITIES = (&(?!amp;|lt;|gt;|nbsp;)(?:\w+;|#\d+;))` at the head of
the text: on success returns the matched entity reference (including `&`)
and the remaining text.  A greedy `\w+` or `\d+` run followed by the
literal `;` admits no effective backtracking, so the run is maximal. -/
def matchBadEntity : List Char → Option (List Char × List Char)
  | '&' :: rest =>
    if lookaheadBlocked rest then none
    else
      match rest with
      | '#' :: rest2 =>
        match rest2.dropWhile Char.isDigit with
        | ';' :: r =>
          if (rest2.takeWhile Char.isDigit).isEmpty then none
          else some ('&' :: '#' :: (rest2.takeWhile Char.isDigit ++ [';']), r)
        | _ => none
      | _ =>
        match rest.dropWhile isWordChar with
        | ';' :: r =>
          if (rest.takeWhile isWordChar).isEmpty then none
          else some ('&' :: (rest.takeWhile isWordChar ++ [';']), r)
        | _ => none
  | _ => none

/-- The named entities of the finite model of Python's `html.unescape`
(invoked via `html.parser.HTMLParser().unescape` in `_remove_entities`).
The real table is the full HTML5 entity list; the theorems below rely only
on the entries given here, and unknown names are returned unchanged
(Python would additionally resolve known prefixes of unknown names, which
no theorem here depends on). -/
def entityTable : List (String × String) :=
  [("amp", "&"), ("lt", "<"), ("gt", ">"), ("nbsp", " "),
   ("copy", "©"), ("quot", "\u0022"), ("reg", "®")]

/-- Decimal value of a digit run. -/
def digitsToNat (ds : List Char) : Nat :=
  ds.foldl (fun acc c => acc * 10 + (c.toNat - 48)) 0

/-- Model of `html.unescape` on one matched entity reference: a decimal
numeric reference `&#ddd;` decodes to the character with that code point
and a named reference is looked up in `entityTable`. -/
def unescapeEntity (m : List Char) : List Char :=
  match m with
  | '&' :: '#' :: rest => [Char.ofNat (digitsToNat (rest.takeWhile Char.isDigit))]
  | '&' :: rest =>
    match entityTable.find? (fun e => decide (e.1 = String.mk rest.dropLast)) with
    | some e => e.2.data
    | none => m
  | _ => m

/-- `RE_BAD_ENTITIES.sub(repl, text)`: scan left to right; at each position
attempt a match; on a match emit the unescaped replacement and continue
after the matched text (the replacement is not rescanned), otherwise keep
the character and move on.  The fuel argument (initially the text length)
makes the scan structural; a match consumes at least two characters, so
fuel at least the length never runs out. -/
def subEntAux : Nat → List Char → List Char
  | 0, l => l
  | _ + 1, [] => []
  | fuel + 1, c :: cs =>
    match matchBadEntity (c :: cs) with
    | some (m, rest) => unescapeEntity m ++ subEntAux fuel rest
    | none => c :: subEntAux fuel cs

/-- Embeds `_remove_entities`. -/
def remove_entities (s : String) : String :=
  String.mk (subEntAux s.data.length s.data)

/-- Whether `RE_BAD_ENTITIES` matches anywhere in the text. -/
def hasBadMatch : List Char → Bool
  | [] => false
  | c :: cs => (matchBadEntity (c :: cs)).isSome || hasBadMatch cs

/-- The view data `_can_show` consumes: `view.visible_region().begin()`,
`view.visible_region().end()`, and the active end `sel[n].b` of each
selection in `view.sel()` (only `sel[0].b` is read). -/
structure ViewState where
  visibleBegin : Int
  visibleEnd : Int
  selEnds : List Int
deriving DecidableEq

/-- Embeds `_can_show`: for `location >= 0` the popup is showable unless
`region.begin() > location or region.end() < location`; otherwise, with at
least one selection, the same check runs against `sel[0].b`; with no
selection the result is `False`. -/
def can_show (view : ViewState) (location : Int) : Bool :=
  if location ≥ 0 then
    !(decide (view.visibleBegin > location) || decide (view.visibleEnd < location))
  else
    match view.selEnds with
    | b0 :: _ => !(decide (view.visibleBegin > b0) || decide (view.visibleEnd < b0))
    | [] => false

/-- The claim's "visible viewport fully contains" predicate. -/
def viewportContains (view : ViewState) (x : Int) : Prop :=
  view.visibleBegin ≤ x ∧ x ≤ view.visibleEnd

/-- `sublime.Region`: two endpoints; `sublime.Region(-1)` (endpoint
defaulted, so `Region(-1, -1)`) is the "deleted" sentinel, and `Region`
equality compares both endpoints. -/
structure Region where
  a : Int
  b : Int
deriving DecidableEq

/-- `sublime.Region(-1)`, the sentinel for an already-deleted phantom. -/
def Region.deleted : Region := ⟨-1, -1⟩

/-- The `mdpopups.Phantom` record: `sublime.Phantom`'s fields
(`region`, `content`, `layout`, `on_navigate`) plus `md`, `css`, `nl2br`,
and the `id` attribute assigned by `PhantomSet.update`.  The navigation
callback is modelled by an opaque identity and `id` by `Option Nat`
(`none` both before assignment and when `add_phantom` returned `None`
because popups are disabled). -/
structure Phantom where
  region : Region
  content : String
  layout : Int
  on_navigate : Option Nat
  md : Bool
  css : Option String
  nl2br : Bool
  id : Option Nat
deriving DecidableEq

/-- Embeds `Phantom.__eq__`: the seven descriptive fields are compared and
`self.id` is not considered. -/
def phantomEq (p rhs : Phantom) : Bool :=
  decide (p.region = rhs.region) && decide (p.content = rhs.content) &&
    decide (p.layout = rhs.layout) && decide (p.on_navigate = rhs.on_navigate) &&
    decide (p.md = rhs.md) && decide (p.css = rhs.css) && decide (p.nl2br = rhs.nl2br)

/-- An entry of the sequence passed to `PhantomSet.update`: either already
an `mdpopups.Phantom` or a plain `sublime.Phantom` still to be wrapped. -/
inductive PhantomInput where
  | mdp (p : Phantom)
  | subl (region : Region) (content : String) (layout : Int) (on_navigate : Option Nat)
deriving DecidableEq

/-- The wrapping step of `PhantomSet.update`: a `sublime.Phantom` is
converted to `Phantom(p.region, p.content, p.layout, md=False, css=None,
on_navigate=p.on_navigate, nl2br=False)`; an `mdpopups.Phantom` is kept. -/
def wrapPhantom : PhantomInput → Phantom
  | PhantomInput.mdp p => p
  | PhantomInput.subl r c l nav => ⟨r, c, l, nav, false, none, false, none⟩

/-- A call observed by the display primitive (the Sublime view API):
`view.add_phantom` returning a fresh id, or `view.erase_phantom_by_id`. -/
inductive DisplayEvent where
  | create (id : Nat) (region : Region) (html : String)
  | remove (id : Option Nat)
deriving DecidableEq

/-- The display primitive's state: the next fresh phantom id and the log of
calls it has received. -/
structure DisplayState where
  next : Nat
  events : List DisplayEvent
deriving DecidableEq

/-- The fixed fallback document `IDK` shown when assembling the final HTML
raised an error. -/
def IDK : String :=
  "\n<style>html \x7bbackground-color: #333; color: red\x7d</style>\n<div><p>¯\\_(ツ)_/¯\x27</p></div>\n"

/-- The `try/except` around `_create_html` in `show_popup`, `update_popup`
and `add_phantom`: an assembled document on success, `IDK` on error. -/
def htmlOfExc (assembled : Except Unit String) : String :=
  match assembled with
  | Except.ok h => h
  | Except.error _ => IDK

/-- Embeds `_create_html`: `_get_theme` yields the style (its own failure,
e.g. the unguarded `base.css` load, aborts assembly), `md2html` converts
markdown content (the external markdown library may fail), and the result
is `"<style>%s</style>" % style` plus the entity-sanitized content.  The
two external stages are modelled by `Except` arguments. -/
def createHtml (themeResult : Except Unit String) (mdResult : Except Unit String)
    (md : Bool) (content : String) : Except Unit String :=
  match themeResult with
  | Except.error e => Except.error e
  | Except.ok style =>
    match (if md then mdResult else Except.ok content) with
    | Except.error e => Except.error e
    | Except.ok c =>
      Except.ok ("<style>" ++ style ++ "</style>" ++ remove_entities c)

/-- Embeds `show_popup`: `none` when popups are disabled or the visibility
guard refuses, otherwise the document handed to `view.show_popup` (the
assembled HTML, or `IDK` if assembling raised). -/
def show_popup (disabled : Bool) (view : ViewState) (location : Int)
    (assembled : Except Unit String) : Option String :=
  if disabled then none
  else if !(can_show view location) then none
  else some (htmlOfExc assembled)

/-- Embeds `update_popup`: `none` when popups are disabled, otherwise the
document handed to `view.update_popup`. -/
def update_popup (disabled : Bool) (assembled : Except Unit String) : Option String :=
  if disabled then none
  else some (htmlOfExc assembled)

/-- The rendering of one phantom, abstracting `_create_html` applied to the
phantom's content and flags. -/
def htmlOf (render : Phantom → Except Unit String) (p : Phantom) : String :=
  htmlOfExc (render p)

/-- Embeds `add_phantom`: when disabled it returns `None` without touching
the view; otherwise the document (assembled or `IDK`) goes to
`view.add_phantom`, which hands back a fresh id. -/
def add_phantom (disabled : Bool) (render : Phantom → Except Unit String)
    (p : Phantom) (st : DisplayState) : Option Nat × DisplayState :=
  if disabled then (none, st)
  else
    (some st.next,
      ⟨st.next + 1, st.events ++ [DisplayEvent.create st.next p.region (htmlOf render p)]⟩)

/-- Step 1 of `PhantomSet.update`: write the regions re-queried from
`query_phantoms` back onto the stored phantoms
(`self.phantoms[i].region = regions[i]` for `i in range(len(regions))`;
with fewer regions than phantoms the tail keeps its old regions, and the
Python `IndexError` of the impossible longer case is totalized away). -/
def refreshRegions : List Phantom → List Region → List Phantom
  | ps, [] => ps
  | [], _ :: _ => []
  | p :: ps, r :: rs => { p with region := r } :: refreshRegions ps rs

/-- The main loop of `PhantomSet.update` over the (wrapped) desired
phantoms: `self.phantoms.index(p)` finds the first old record equal to `p`
(per `phantomEq`) and its id is copied onto `p`; on `ValueError` the
phantom is materialized with `add_phantom` and gets the returned id. -/
def updateLoop (disabled : Bool) (render : Phantom → Except Unit String)
    (old : List Phantom) :
    List PhantomInput → DisplayState → List Phantom × DisplayState
  | [], st => ([], st)
  | np :: rest, st =>
    let p0 := wrapPhantom np
    match old.find? (fun q => phantomEq q p0) with
    | some q =>
      let res := updateLoop disabled render old rest st
      ({ p0 with id := q.id } :: res.1, res.2)
    | none =>
      let created := add_phantom disabled render p0 st
      let res := updateLoop disabled render old rest created.2
      ({ p0 with id := created.1 } :: res.1, res.2)

/-- The cleanup pass of `PhantomSet.update`: for every stored phantom not
contained (per `phantomEq`) in the processed new sequence and whose
refreshed region is not `sublime.Region(-1)`, request
`erase_phantom_by_id`. -/
def removeEvents (newList old : List Phantom) : List DisplayEvent :=
  (old.filter (fun p =>
      !(newList.any (fun q => phantomEq q p)) && !(decide (p.region = Region.deleted)))).map
    (fun p => DisplayEvent.remove p.id)

/-- Embeds `PhantomSet.update`: refresh the stored regions, process the
desired sequence (reusing ids or creating phantoms), erase the stale
phantoms, and store the processed sequence as the new phantom list. -/
def phantomSetUpdate (disabled : Bool) (render : Phantom → Except Unit String)
    (phantoms : List Phantom) (regions : List Region)
    (new_phantoms : List PhantomInput) (st : DisplayState) :
    List Phantom × DisplayState :=
  let old := refreshRegions phantoms regions
  let res := updateLoop disabled render old new_phantoms st
  (res.1, ⟨res.2.next, res.2.events ++ removeEvents res.1 old⟩)

/-- Whether a display event is a `view.add_phantom` call. -/
def isCreateEvent : DisplayEvent → Bool
  | DisplayEvent.create _ _ _ => true
  | DisplayEvent.remove _ => false

end Mdpopups

namespace Mdpopups

theorem cacheLimit_pos (s : Option SettingVal) : 1 ≤ cacheLimit s := by
  match s with
  | none => decide
  | some SettingVal.vother => decide
  | some (SettingVal.vint n) =>
    simp only [cacheLimit]
    split <;> omega

theorem pruneAux_length_lt {V : Type} :
    ∀ (fuel : Nat) (limit : Int) (c : List (String × V)),
      1 ≤ limit → c.length ≤ fuel → ((pruneAux fuel limit c).length : Int) < limit := by
  intro fuel
  induction fuel with
  | zero =>
    intro limit c h1 h2
    have hc : c.length = 0 := Nat.le_zero.mp h2
    simp [pruneAux, hc]
    omega
  | succ f ih =>
    intro limit c h1 h2
    simp only [pruneAux]
    split
    · rename_i hge
      have hlen : 1 ≤ c.length := by
        by_contra hlt
        have : c.length = 0 := by omega
        rw [this] at hge
        omega
      have hdrop : c.dropLast.length ≤ f := by
        rw [List.length_dropLast]
        omega
      exact ih limit c.dropLast h1 hdrop
    · omega

theorem odInsert_length {V : Type} (k : String) (v : V) :
    ∀ c : List (String × V), (odInsert k v c).length ≤ c.length + 1 := by
  intro c
  induction c with
  | nil => simp [odInsert]
  | cons hd tl ih =>
    simp only [odInsert]
    split
    · simp
    · simpa using Nat.succ_le_succ ih

/-- Claim C2: after any cache insertion (scheme cache or highlighter cache;
both use `cacheInsert` via `_prune_cache`), the cache size never exceeds the
configured limit, where the limit defaults to 10 when the setting is absent
or invalid, and a non-positive configured integer also falls back to 10.
Since the bound holds for an arbitrary pre-insertion cache, it holds after
each insertion of every sequence of insertions. -/
theorem c2_cache_size_bound :
    (∀ (V : Type) (s : Option SettingVal) (k : String) (v : V) (c : List (String × V)),
      ((cacheInsert s k v c).length : Int) ≤ cacheLimit s) ∧
    cacheLimit none = 10 ∧
    cacheLimit (some SettingVal.vother) = 10 ∧
    cacheLimit (some (SettingVal.vint 0)) = 10 ∧
    cacheLimit (some (SettingVal.vint (-7))) = 10 := by
  refine ⟨?_, by decide, by decide, by decide, by decide⟩
  intro V s k v c
  have hlim := cacheLimit_pos s
  have hprune := pruneAux_length_lt (V := V) (c.length + 1) (cacheLimit s) c hlim
    (Nat.le_succ _)
  have hins := odInsert_length k v (pruneCache (cacheLimit s) c)
  simp only [cacheInsert, pruneCache] at *
  have : ((odInsert k v (pruneAux (c.length + 1) (cacheLimit s) c)).length : Int)
      ≤ ((pruneAux (c.length + 1) (cacheLimit s) c).length : Int) + 1 := by
    exact_mod_cast hins
  omega

/-- Claim C1 (code bug): pruning the cache before an insertion evicts the
most-recently-inserted entry, not the least-recently-inserted one.  With the
cache holding `a` (oldest) then `b` (newest) and `cache_limit = 2`,
inserting `c` evicts `b` (the survivor next to `c` is `a`), while the claim
and the docstring of `_prune_cache` ("Prune older items in cache") require
evicting `a`.  Cause: `_prune_cache` uses `popitem(last=True)`, which pops
from the newest end of the `OrderedDict`. -/
theorem c1_prune_evicts_newest :
    pruneCache 2 [("a", 1), ("b", 2)] = [("a", 1)] ∧
    cacheInsert (some (SettingVal.vint 2)) "c" 3 [("a", 1), ("b", 2)]
      = [("a", 1), ("c", 3)] := by
  constructor <;> decide

/-- Claim C3: a cached scheme entry found on lookup is treated as a miss
(rebuilt) if and only if it is expired — `cache_refresh_time = 0` means
always expire, expiry compares `now - inserted_at` against the configured
minutes, and invalid or negative configured values fall back to 30 — or the
cached highlighting-backend boolean differs from the current
`use_sublime_highlighter` setting. -/
theorem c3_scheme_miss_iff
    (setting : Option SettingVal) (hl : Bool) (now : Int) (e : SchemeEntry) :
    schemeLookup setting hl now e = none ↔ claimMiss setting hl now e := by
  have hbool : schemeLookup setting hl now e = none ↔
      (isCacheExpired setting now e.insertedAt || (e.usePygments != !hl)) = true := by
    simp only [schemeLookup]
    split <;> simp_all
  rw [hbool]
  simp only [isCacheExpired, claimMiss, claimExpired, Bool.or_eq_true,
    decide_eq_true_eq, bne_iff_ne]
  constructor
  · rintro ((h0 | hge) | hne)
    · exact Or.inl (Or.inl h0)
    · exact Or.inl (Or.inr hge)
    · right
      cases hp : e.usePygments <;> cases hhl : hl <;> simp_all
  · rintro ((h0 | hge) | hne)
    · exact Or.inl (Or.inl h0)
    · exact Or.inl (Or.inr hge)
    · right
      cases hp : e.usePygments <;> cases hhl : hl <;> simp_all

theorem subEntAux_id :
    ∀ (fuel : Nat) (l : List Char), hasBadMatch l = false → subEntAux fuel l = l := by
  intro fuel
  induction fuel with
  | zero => intro l _; rfl
  | succ f ih =>
    intro l h
    cases l with
    | nil => rfl
    | cons c cs =>
      simp only [hasBadMatch, Bool.or_eq_false_iff] at h
      have hm : matchBadEntity (c :: cs) = none :=
        Option.not_isSome_iff_eq_none.mp (by simp [h.1])
      simp [subEntAux, hm, ih cs h.2]

/-- Claim C4 counterexample: the sanitizer is not idempotent —
`&#38;` decodes to `&`, which recombines with the following text into a new
entity reference, so sanitizing `&#38;copy;` yields `&copy;` whose own
sanitization is `©`; moreover the hexadecimal numeric reference `&#x41;`
is not matched by `RE_BAD_ENTITIES` and passes through undecoded, against
the claim's "numeric entities alike". -/
theorem c4_counterexample :
    remove_entities (remove_entities "&#38;copy;") ≠ remove_entities "&#38;copy;" ∧
    remove_entities "&#38;copy;" = "&copy;" ∧
    remove_entities "&#x41;" = "&#x41;" := by
  refine ⟨by decide, by decide, by decide⟩

/-- Claim C4 as amended: the sanitizer replaces every match of the
bad-entity pattern — a semicolon-terminated named (`&word;`) or decimal
numeric (`&#digits;`) entity reference other than `&amp;`, `&lt;`, `&gt;`,
`&nbsp;` — with its decoded literal character; it leaves the four excepted
entities unchanged, decodes `&copy;` to `©` and `&#65;` to `A`, and is the
identity on any text in which the pattern does not match (hence idempotent
on outputs that contain no remaining match, though not idempotent in
general, and hexadecimal numeric references pass through). -/
theorem c4_amended :
    (∀ s : String, hasBadMatch s.data = false → remove_entities s = s) ∧
    remove_entities "&amp;" = "&amp;" ∧
    remove_entities "&lt;" = "&lt;" ∧
    remove_entities "&gt;" = "&gt;" ∧
    remove_entities "&nbsp;" = "&nbsp;" ∧
    remove_entities "&copy;" = "©" ∧
    remove_entities "&#65;" = "A" := by
  refine ⟨?_, by decide, by decide, by decide, by decide, by decide, by decide⟩
  intro s h
  obtain ⟨l⟩ := s
  simp only [remove_entities]
  rw [subEntAux_id _ l h]

/-- Witness for the amended C4: on text with no bad-entity match the
sanitizer is the identity. -/
theorem c4_amended_witness : remove_entities "a & b" = "a & b" :=
  c4_amended.1 "a & b" (by decide)

/-- Claim C5: for `location ≥ 0` the guard answers true exactly when the
visible viewport fully contains `location`; for `location < 0` with at
least one selection it answers true exactly when the viewport fully
contains the first selection's active end; with no location and no
selection it answers false.  In particular, with viewport `[10, 100]`,
location `50` is showable, location `150` is not, and a selection ending
at `5` with no explicit location is not. -/
theorem c5_can_show_spec :
    (∀ (v : ViewState) (location : Int), 0 ≤ location →
      (can_show v location = true ↔ viewportContains v location)) ∧
    (∀ (v : ViewState) (location b0 : Int) (rest : List Int), location < 0 →
      v.selEnds = b0 :: rest →
      (can_show v location = true ↔ viewportContains v b0)) ∧
    (∀ (v : ViewState) (location : Int), location < 0 → v.selEnds = [] →
      can_show v location = false) ∧
    can_show ⟨10, 100, []⟩ 50 = true ∧
    can_show ⟨10, 100, []⟩ 150 = false ∧
    can_show ⟨10, 100, [5]⟩ (-1) = false := by
  refine ⟨?_, ?_, ?_, by decide, by decide, by decide⟩
  · intro v location hloc
    simp only [can_show, viewportContains, if_pos hloc]
    constructor
    · intro h
      simp only [Bool.not_eq_true', Bool.or_eq_false_iff, decide_eq_false_iff_not,
        not_lt] at h
      exact ⟨h.1, h.2⟩
    · intro h
      simp only [Bool.not_eq_true', Bool.or_eq_false_iff, decide_eq_false_iff_not,
        not_lt]
      exact ⟨h.1, h.2⟩
  · intro v location b0 rest hloc hsel
    have hneg : ¬ location ≥ 0 := by omega
    simp only [can_show, if_neg hneg, hsel, viewportContains]
    constructor
    · intro h
      simp only [Bool.not_eq_true', Bool.or_eq_false_iff, decide_eq_false_iff_not,
        not_lt] at h
      exact ⟨h.1, h.2⟩
    · intro h
      simp only [Bool.not_eq_true', Bool.or_eq_false_iff, decide_eq_false_iff_not,
        not_lt]
      exact ⟨h.1, h.2⟩
  · intro v location hloc hsel
    have hneg : ¬ location ≥ 0 := by omega
    simp only [can_show, if_neg hneg, hsel]

/-- Witness for C5: the general viewport-containment case applied at the
spec's example viewport `[10, 100]` and location `50`. -/
theorem c5_witness :
    can_show ⟨10, 100, []⟩ 50 = true ↔ viewportContains ⟨10, 100, []⟩ 50 :=
  c5_can_show_spec.1 ⟨10, 100, []⟩ 50 (by decide)

theorem phantomEq_iff (p q : Phantom) :
    phantomEq p q = true ↔
      (p.region = q.region ∧ p.content = q.content ∧ p.layout = q.layout ∧
        p.on_navigate = q.on_navigate ∧ p.md = q.md ∧ p.css = q.css ∧
        p.nl2br = q.nl2br) := by
  simp [phantomEq, and_assoc]

theorem phantomEq_symm {p q : Phantom} (h : phantomEq p q = true) :
    phantomEq q p = true := by
  rw [phantomEq_iff] at h ⊢
  obtain ⟨h1, h2, h3, h4, h5, h6, h7⟩ := h
  exact ⟨h1.symm, h2.symm, h3.symm, h4.symm, h5.symm, h6.symm, h7.symm⟩

theorem phantomEq_trans {p q r : Phantom} (h : phantomEq p q = true)
    (h' : phantomEq q r = true) : phantomEq p r = true := by
  rw [phantomEq_iff] at h h' ⊢
  obtain ⟨h1, h2, h3, h4, h5, h6, h7⟩ := h
  obtain ⟨g1, g2, g3, g4, g5, g6, g7⟩ := h'
  exact ⟨h1.trans g1, h2.trans g2, h3.trans g3, h4.trans g4, h5.trans g5,
    h6.trans g6, h7.trans g7⟩

theorem phantomEq_id_left (p q : Phantom) (i : Option Nat) :
    phantomEq { p with id := i } q = phantomEq p q := by
  simp [phantomEq]

/-- Claim C6: `Phantom.__eq__` is determined exactly by the seven fields
`region`, `content`, `layout`, `on_navigate`, `md`, `css`, `nl2br`; the
assigned `id` is excluded, so changing either id never changes equality. -/
theorem c6_phantom_eq_fields :
    (∀ p q : Phantom, phantomEq p q = true ↔
      (p.region = q.region ∧ p.content = q.content ∧ p.layout = q.layout ∧
        p.on_navigate = q.on_navigate ∧ p.md = q.md ∧ p.css = q.css ∧
        p.nl2br = q.nl2br)) ∧
    (∀ (p q : Phantom) (i j : Option Nat),
      phantomEq { p with id := i } { q with id := j } = phantomEq p q) := by
  constructor
  · exact phantomEq_iff
  · intro p q i j
    simp [phantomEq]

theorem phantomSetUpdate_fst (d : Bool) (r : Phantom → Except Unit String)
    (phantoms : List Phantom) (regions : List Region)
    (news : List PhantomInput) (st : DisplayState) :
    (phantomSetUpdate d r phantoms regions news st).1 =
      (updateLoop d r (refreshRegions phantoms regions) news st).1 := rfl

theorem phantomSetUpdate_events (d : Bool) (r : Phantom → Except Unit String)
    (phantoms : List Phantom) (regions : List Region)
    (news : List PhantomInput) (st : DisplayState) :
    (phantomSetUpdate d r phantoms regions news st).2.events =
      (updateLoop d r (refreshRegions phantoms regions) news st).2.events ++
        removeEvents (updateLoop d r (refreshRegions phantoms regions) news st).1
          (refreshRegions phantoms regions) := rfl

theorem add_phantom_next (d : Bool) (r : Phantom → Except Unit String)
    (p : Phantom) (st : DisplayState) :
    st.next ≤ (add_phantom d r p st).2.next := by
  cases d <;> simp [add_phantom]

theorem add_phantom_events (d : Bool) (r : Phantom → Except Unit String)
    (p : Phantom) (st : DisplayState) :
    ∃ δ, (add_phantom d r p st).2.events = st.events ++ δ := by
  cases d
  · exact ⟨[DisplayEvent.create st.next p.region (htmlOf r p)], by simp [add_phantom]⟩
  · exact ⟨[], by simp [add_phantom]⟩

theorem updateLoop_length (d : Bool) (r : Phantom → Except Unit String)
    (old : List Phantom) :
    ∀ (news : List PhantomInput) (st : DisplayState),
      (updateLoop d r old news st).1.length = news.length := by
  intro news
  induction news with
  | nil => intro st; simp [updateLoop]
  | cons np rest ih =>
    intro st
    cases hfind : old.find? (fun q => phantomEq q (wrapPhantom np)) with
    | some q => simp [updateLoop, hfind, ih]
    | none => simp [updateLoop, hfind, ih]

theorem updateLoop_next (d : Bool) (r : Phantom → Except Unit String)
    (old : List Phantom) :
    ∀ (news : List PhantomInput) (st : DisplayState),
      st.next ≤ (updateLoop d r old news st).2.next := by
  intro news
  induction news with
  | nil => intro st; simp [updateLoop]
  | cons np rest ih =>
    intro st
    cases hfind : old.find? (fun q => phantomEq q (wrapPhantom np)) with
    | some q => simpa [updateLoop, hfind] using ih st
    | none =>
      have h1 := add_phantom_next d r (wrapPhantom np) st
      have h2 := ih (add_phantom d r (wrapPhantom np) st).2
      simp only [updateLoop, hfind]
      omega

theorem updateLoop_events (d : Bool) (r : Phantom → Except Unit String)
    (old : List Phantom) :
    ∀ (news : List PhantomInput) (st : DisplayState),
      ∃ δ, (updateLoop d r old news st).2.events = st.events ++ δ := by
  intro news
  induction news with
  | nil => intro st; exact ⟨[], by simp [updateLoop]⟩
  | cons np rest ih =>
    intro st
    cases hfind : old.find? (fun q => phantomEq q (wrapPhantom np)) with
    | some q =>
      obtain ⟨δ, hδ⟩ := ih st
      exact ⟨δ, by simp [updateLoop, hfind, hδ]⟩
    | none =>
      obtain ⟨δ1, hδ1⟩ := add_phantom_events d r (wrapPhantom np) st
      obtain ⟨δ2, hδ2⟩ := ih (add_phantom d r (wrapPhantom np) st).2
      exact ⟨δ1 ++ δ2, by simp [updateLoop, hfind, hδ2, hδ1]⟩

theorem updateLoop_matched (d : Bool) (r : Phantom → Except Unit String)
    (old : List Phantom) :
    ∀ (news : List PhantomInput) (st : DisplayState) (j : Nat)
      (h : j < news.length) (q : Phantom),
      old.find? (fun q' => phantomEq q' (wrapPhantom (news.get ⟨j, h⟩))) = some q →
      (updateLoop d r old news st).1[j]? =
        some { wrapPhantom (news.get ⟨j, h⟩) with id := q.id } := by
  intro news
  induction news with
  | nil => intro st j h; simp at h
  | cons np rest ih =>
    intro st j h q hfind
    cases j with
    | zero =>
      simp only [List.get] at hfind
      simp [updateLoop, hfind]
    | succ j' =>
      simp only [List.get] at hfind
      have h' : j' < rest.length := by simpa using h
      cases hhead : old.find? (fun q' => phantomEq q' (wrapPhantom np)) with
      | some q0 =>
        simpa [updateLoop, hhead] using ih st j' h' q hfind
      | none =>
        simpa [updateLoop, hhead] using
          ih (add_phantom d r (wrapPhantom np) st).2 j' h' q hfind

theorem updateLoop_unmatched (d : Bool) (r : Phantom → Except Unit String)
    (old : List Phantom) :
    ∀ (news : List PhantomInput) (st : DisplayState) (j : Nat)
      (h : j < news.length),
      old.find? (fun q' => phantomEq q' (wrapPhantom (news.get ⟨j, h⟩))) = none →
      ∃ i : Option Nat,
        (updateLoop d r old news st).1[j]? =
          some { wrapPhantom (news.get ⟨j, h⟩) with id := i } ∧
        (d = false → ∃ n, i = some n ∧ st.next ≤ n ∧
          DisplayEvent.create n (wrapPhantom (news.get ⟨j, h⟩)).region
              (htmlOf r (wrapPhantom (news.get ⟨j, h⟩)))
            ∈ (updateLoop d r old news st).2.events) := by
  intro news
  induction news with
  | nil => intro st j h; simp at h
  | cons np rest ih =>
    intro st j h hfind
    cases j with
    | zero =>
      simp only [List.get] at hfind
      refine ⟨(add_phantom d r (wrapPhantom np) st).1, ?_, ?_⟩
      · simp [updateLoop, hfind]
      · intro hd
        subst hd
        refine ⟨st.next, by simp [add_phantom], Nat.le_refl _, ?_⟩
        obtain ⟨δ, hδ⟩ :=
          updateLoop_events false r old rest (add_phantom false r (wrapPhantom np) st).2
        simp only [List.get, updateLoop, hfind]
        rw [hδ]
        simp [add_phantom, htmlOf]
    | succ j' =>
      simp only [List.get] at hfind
      have h' : j' < rest.length := by simpa using h
      cases hhead : old.find? (fun q' => phantomEq q' (wrapPhantom np)) with
      | some q0 =>
        obtain ⟨i, hi, hrest⟩ := ih st j' h' hfind
        refine ⟨i, by simpa [updateLoop, hhead] using hi, ?_⟩
        intro hd
        obtain ⟨n, hn, hle, hmem⟩ := hrest hd
        exact ⟨n, hn, hle, by simpa [updateLoop, hhead] using hmem⟩
      | none =>
        obtain ⟨i, hi, hrest⟩ := ih (add_phantom d r (wrapPhantom np) st).2 j' h' hfind
        refine ⟨i, by simpa [updateLoop, hhead] using hi, ?_⟩
        intro hd
        obtain ⟨n, hn, hle, hmem⟩ := hrest hd
        have hnext := add_phantom_next d r (wrapPhantom np) st
        exact ⟨n, hn, by omega, by simpa [updateLoop, hhead] using hmem⟩

theorem updateLoop_createCount (r : Phantom → Except Unit String)
    (old : List Phantom) :
    ∀ (news : List PhantomInput) (st : DisplayState),
      ((updateLoop false r old news st).2.events.filter isCreateEvent).length =
        (st.events.filter isCreateEvent).length +
          (news.filter
            (fun np => (old.find? (fun q => phantomEq q (wrapPhantom np))).isNone)).length := by
  intro news
  induction news with
  | nil => intro st; simp [updateLoop]
  | cons np rest ih =>
    intro st
    cases hfind : old.find? (fun q => phantomEq q (wrapPhantom np)) with
    | some q =>
      simpa [updateLoop, hfind, List.filter] using ih st
    | none =>
      have hstep := ih (add_phantom false r (wrapPhantom np) st).2
      have hadd :
          ((add_phantom false r (wrapPhantom np) st).2.events.filter isCreateEvent).length =
            (st.events.filter isCreateEvent).length + 1 := by
        simp [add_phantom, isCreateEvent]
      simp only [updateLoop, hfind, List.filter, Option.isNone_none] at hstep ⊢
      rw [hstep, hadd]
      simp
      omega

theorem removesFilterCreate (l : List Phantom) :
    ((l.map (fun p => DisplayEvent.remove p.id)).filter isCreateEvent) = [] := by
  induction l with
  | nil => rfl
  | cons hd tl ih => simp [isCreateEvent, ih]

theorem removeEvents_no_creates (newList old : List Phantom) :
    (removeEvents newList old).filter isCreateEvent = [] := by
  simp only [removeEvents]
  exact removesFilterCreate _

theorem remove_mem_of_not_matched {q : Phantom} {newList old : List Phantom}
    (hmem : q ∈ old) (hany : (newList.any (fun p => phantomEq p q)) = false)
    (hreg : q.region ≠ Region.deleted) :
    DisplayEvent.remove q.id ∈ removeEvents newList old := by
  simp only [removeEvents, List.mem_map]
  refine ⟨q, ?_, rfl⟩
  simp [List.mem_filter, hmem, hany, hreg]

/-- Claim C7: during `PhantomSet.update` (popups enabled), a desired
phantom equal — per the id-excluding equality — to some old record gets the
id of the first such old record; a desired phantom with no equal old record
gets a freshly assigned id, with a matching `view.add_phantom` call whose
document comes from the render pipeline; the number of `view.add_phantom`
calls equals the number of desired phantoms without an equal old record
(so matched phantoms cause no create call); and on the spec's example —
old `[{id=1, region=[0,5], content="a"}]`, desired the equal record — the
reconciled record reuses `id=1` with zero create or remove calls. -/
theorem c7_update_reuse_and_create
    (r : Phantom → Except Unit String) (phantoms : List Phantom)
    (regions : List Region) (news : List PhantomInput) (st : DisplayState) :
    (∀ (j : Nat) (h : j < news.length) (q : Phantom),
      (refreshRegions phantoms regions).find?
          (fun q' => phantomEq q' (wrapPhantom (news.get ⟨j, h⟩))) = some q →
      (phantomSetUpdate false r phantoms regions news st).1[j]? =
        some { wrapPhantom (news.get ⟨j, h⟩) with id := q.id }) ∧
    (∀ (j : Nat) (h : j < news.length),
      (refreshRegions phantoms regions).find?
          (fun q' => phantomEq q' (wrapPhantom (news.get ⟨j, h⟩))) = none →
      ∃ n : Nat,
        (phantomSetUpdate false r phantoms regions news st).1[j]? =
          some { wrapPhantom (news.get ⟨j, h⟩) with id := some n } ∧
        st.next ≤ n ∧
        DisplayEvent.create n (wrapPhantom (news.get ⟨j, h⟩)).region
            (htmlOf r (wrapPhantom (news.get ⟨j, h⟩)))
          ∈ (phantomSetUpdate false r phantoms regions news st).2.events) ∧
    (((phantomSetUpdate false r phantoms regions news st).2.events.filter
        isCreateEvent).length =
      (st.events.filter isCreateEvent).length +
        (news.filter (fun np =>
          ((refreshRegions phantoms regions).find?
            (fun q => phantomEq q (wrapPhantom np))).isNone)).length) ∧
    phantomSetUpdate false (fun _ => Except.ok "h")
        [⟨⟨0, 5⟩, "a", 0, none, true, none, true, some 1⟩] [⟨0, 5⟩]
        [PhantomInput.mdp ⟨⟨0, 5⟩, "a", 0, none, true, none, true, none⟩] ⟨7, []⟩ =
      ([⟨⟨0, 5⟩, "a", 0, none, true, none, true, some 1⟩], ⟨7, []⟩) := by
  refine ⟨?_, ?_, ?_, by decide⟩
  · intro j h q hfind
    rw [phantomSetUpdate_fst]
    exact updateLoop_matched false r _ news st j h q hfind
  · intro j h hfind
    obtain ⟨i, hi, hfresh⟩ :=
      updateLoop_unmatched false r (refreshRegions phantoms regions) news st j h hfind
    obtain ⟨n, hn, hle, hmem⟩ := hfresh rfl
    subst hn
    refine ⟨n, ?_, hle, ?_⟩
    · rw [phantomSetUpdate_fst]
      exact hi
    · rw [phantomSetUpdate_events]
      exact List.mem_append_left _ hmem
  · rw [phantomSetUpdate_events, List.filter_append, removeEvents_no_creates,
      List.append_nil]
    exact updateLoop_createCount r (refreshRegions phantoms regions) news st

/-- Witness for C7: the id-reuse case applied at the spec's example. -/
theorem c7_witness :
    (phantomSetUpdate false (fun _ => Except.ok "h")
        [⟨⟨0, 5⟩, "a", 0, none, true, none, true, some 1⟩] [⟨0, 5⟩]
        [PhantomInput.mdp ⟨⟨0, 5⟩, "a", 0, none, true, none, true, none⟩]
        ⟨7, []⟩).1[0]? =
      some ⟨⟨0, 5⟩, "a", 0, none, true, none, true, some 1⟩ :=
  (c7_update_reuse_and_create (fun _ => Except.ok "h")
      [⟨⟨0, 5⟩, "a", 0, none, true, none, true, some 1⟩] [⟨0, 5⟩]
      [PhantomInput.mdp ⟨⟨0, 5⟩, "a", 0, none, true, none, true, none⟩]
      ⟨7, []⟩).1 0 (by decide)
    ⟨⟨0, 5⟩, "a", 0, none, true, none, true, some 1⟩ (by decide)

/-- Claim C8 counterexample: an assigned id from the previous cycle can be
leaked.  With two stored records that are equal per the id-excluding
equality but carry different ids (`some 10` and `some 11` — a state the
update itself produces when two equal desired phantoms are both created),
and one equal desired phantom, the update carries `some 10` forward; the
record holding `some 11` is "present (by equality) in the desired
sequence", so no removal is requested for it, its region is not the
deleted sentinel, and no stored phantom carries it: `some 11` is neither
carried forward nor removed. -/
theorem c8_counterexample :
    ¬ (∀ q ∈ refreshRegions
          [⟨⟨0, 5⟩, "a", 0, none, true, none, true, some 10⟩,
           ⟨⟨0, 5⟩, "a", 0, none, true, none, true, some 11⟩]
          [⟨0, 5⟩, ⟨0, 5⟩],
        q.region = Region.deleted ∨
        (∃ p ∈ (phantomSetUpdate false (fun _ => Except.ok "h")
            [⟨⟨0, 5⟩, "a", 0, none, true, none, true, some 10⟩,
             ⟨⟨0, 5⟩, "a", 0, none, true, none, true, some 11⟩]
            [⟨0, 5⟩, ⟨0, 5⟩]
            [PhantomInput.mdp ⟨⟨0, 5⟩, "a", 0, none, true, none, true, none⟩]
            ⟨20, []⟩).1, p.id = q.id) ∨
        DisplayEvent.remove q.id ∈ (phantomSetUpdate false (fun _ => Except.ok "h")
            [⟨⟨0, 5⟩, "a", 0, none, true, none, true, some 10⟩,
             ⟨⟨0, 5⟩, "a", 0, none, true, none, true, some 11⟩]
            [⟨0, 5⟩, ⟨0, 5⟩]
            [PhantomInput.mdp ⟨⟨0, 5⟩, "a", 0, none, true, none, true, none⟩]
            ⟨20, []⟩).2.events) := by
  decide

/-- Claim C8 as amended: after `PhantomSet.update`, (a) every old record
not present — per the id-excluding equality — in the stored desired
sequence has its removal requested from the display primitive, except
exactly when its refreshed region equals the deleted sentinel; and (b)
provided no two old records are equal to each other under that equality,
no assigned id from the previous cycle is leaked: every old record's id is
carried on some stored phantom, explicitly removed, or belongs to a record
already at the deleted sentinel.  (With duplicate equal old records an id
can be leaked, as the counterexample shows.) -/
theorem c8_amended (r : Phantom → Except Unit String) (phantoms : List Phantom)
    (regions : List Region) (news : List PhantomInput) (st : DisplayState) :
    (∀ q ∈ refreshRegions phantoms regions,
      (¬ ∃ p ∈ (phantomSetUpdate false r phantoms regions news st).1,
          phantomEq p q = true) →
      q.region ≠ Region.deleted →
      DisplayEvent.remove q.id ∈
        (phantomSetUpdate false r phantoms regions news st).2.events) ∧
    ((∀ q1 q2, q1 ∈ refreshRegions phantoms regions →
        q2 ∈ refreshRegions phantoms regions → phantomEq q1 q2 = true → q1 = q2) →
      ∀ q ∈ refreshRegions phantoms regions,
        q.region = Region.deleted ∨
        (∃ p ∈ (phantomSetUpdate false r phantoms regions news st).1, p.id = q.id) ∨
        DisplayEvent.remove q.id ∈
          (phantomSetUpdate false r phantoms regions news st).2.events) := by
  have removalOf : ∀ q ∈ refreshRegions phantoms regions,
      (¬ ∃ p ∈ (phantomSetUpdate false r phantoms regions news st).1,
          phantomEq p q = true) →
      q.region ≠ Region.deleted →
      DisplayEvent.remove q.id ∈
        (phantomSetUpdate false r phantoms regions news st).2.events := by
    intro q hq hnot hreg
    have hany : ((phantomSetUpdate false r phantoms regions news st).1.any
        (fun p => phantomEq p q)) = false := by
      rw [Bool.eq_false_iff]
      intro hcontra
      rw [List.any_eq_true] at hcontra
      exact hnot hcontra
    rw [phantomSetUpdate_events]
    refine List.mem_append_right _ ?_
    rw [phantomSetUpdate_fst] at hany
    exact remove_mem_of_not_matched hq hany hreg
  refine ⟨removalOf, ?_⟩
  intro hdistinct q hq
  by_cases hmatch : ∃ p ∈ (phantomSetUpdate false r phantoms regions news st).1,
      phantomEq p q = true
  · obtain ⟨p, hp, hpq⟩ := hmatch
    rw [phantomSetUpdate_fst] at hp
    have hpmem := hp
    rw [List.mem_iff_getElem] at hp
    obtain ⟨j, hjlen, hget⟩ := hp
    have hj : j < news.length := by
      rw [updateLoop_length] at hjlen
      exact hjlen
    have hgetq : (updateLoop false r (refreshRegions phantoms regions) news st).1[j]? =
        some p := by
      rw [List.getElem?_eq_getElem hjlen, hget]
    have hgets : (news.get ⟨j, hj⟩) = news.get ⟨j, hj⟩ := rfl
    cases hfind : (refreshRegions phantoms regions).find?
        (fun q' => phantomEq q' (wrapPhantom (news.get ⟨j, hj⟩))) with
    | some q'' =>
      have hmat := updateLoop_matched false r (refreshRegions phantoms regions)
        news st j hj q'' hfind
      rw [hgetq] at hmat
      have hp_eq : p = { wrapPhantom (news.get ⟨j, hj⟩) with id := q''.id } :=
        Option.some_injective _ hmat
      have hq''mem : q'' ∈ refreshRegions phantoms regions :=
        List.mem_of_find?_eq_some hfind
      have hq''eq : phantomEq q'' (wrapPhantom (news.get ⟨j, hj⟩)) = true := by
        have := List.find?_some hfind
        simpa using this
      have hp0q : phantomEq (wrapPhantom (news.get ⟨j, hj⟩)) q = true := by
        have := hpq
        rw [hp_eq, phantomEq_id_left] at this
        exact this
      have hq''q : phantomEq q'' q = true := phantomEq_trans hq''eq hp0q
      have : q'' = q := hdistinct q'' q hq''mem hq hq''q
      refine Or.inr (Or.inl ⟨p, ?_, ?_⟩)
      · rw [phantomSetUpdate_fst]
        exact hpmem
      · rw [hp_eq]
        simp [this]
    | none =>
      exfalso
      obtain ⟨i, hi, _⟩ := updateLoop_unmatched false r (refreshRegions phantoms regions)
        news st j hj hfind
      rw [hgetq] at hi
      have hp_eq : p = { wrapPhantom (news.get ⟨j, hj⟩) with id := i } :=
        Option.some_injective _ hi
      have hp0q : phantomEq (wrapPhantom (news.get ⟨j, hj⟩)) q = true := by
        have := hpq
        rw [hp_eq, phantomEq_id_left] at this
        exact this
      have hq_p0 : phantomEq q (wrapPhantom (news.get ⟨j, hj⟩)) = true :=
        phantomEq_symm hp0q
      have hnone := List.find?_eq_none.mp hfind q hq
      exact hnone hq_p0
  · by_cases hreg : q.region = Region.deleted
    · exact Or.inl hreg
    · exact Or.inr (Or.inr (removalOf q hq hmatch hreg))

/-- Witness for the amended C8: a stale stored phantom (not present in the
empty desired sequence, region not the deleted sentinel) gets an erase
call. -/
theorem c8_amended_witness :
    DisplayEvent.remove (some 10) ∈
      (phantomSetUpdate false (fun _ => Except.ok "h")
        [⟨⟨0, 5⟩, "a", 0, none, true, none, true, some 10⟩] [⟨0, 5⟩] []
        ⟨0, []⟩).2.events :=
  (c8_amended (fun _ => Except.ok "h")
      [⟨⟨0, 5⟩, "a", 0, none, true, none, true, some 10⟩] [⟨0, 5⟩] []
      ⟨0, []⟩).1 ⟨⟨0, 5⟩, "a", 0, none, true, none, true, some 10⟩
    (by decide) (by decide) (by decide)

/-- Claim C10: `PhantomSet.update` stores exactly the transformed desired
sequence (modelled value-wise; in Python the very same list object is
mutated in place and then stored): the stored list has one entry per
desired entry, each stored entry is the corresponding desired entry —
wrapped with `md=False, css=None, nl2br=False` when it was a plain
`sublime.Phantom` — with an `id` field assigned onto it (erasing `id`
recovers the wrapped input exactly). -/
theorem c10_update_transforms_input (d : Bool) (r : Phantom → Except Unit String)
    (phantoms : List Phantom) (regions : List Region)
    (news : List PhantomInput) (st : DisplayState) :
    ((phantomSetUpdate d r phantoms regions news st).1.length = news.length) ∧
    (∀ (j : Nat) (h : j < news.length),
      ((phantomSetUpdate d r phantoms regions news st).1[j]?).map
          (fun p => { p with id := none }) =
        some { wrapPhantom (news.get ⟨j, h⟩) with id := none }) ∧
    (∀ (j : Nat) (h : j < news.length) (reg : Region) (c : String) (l : Int)
        (nav : Option Nat),
      news.get ⟨j, h⟩ = PhantomInput.subl reg c l nav →
      ((phantomSetUpdate d r phantoms regions news st).1[j]?).map
          (fun p => { p with id := none }) =
        some ⟨reg, c, l, nav, false, none, false, none⟩) := by
  have entry : ∀ (j : Nat) (h : j < news.length),
      ((phantomSetUpdate d r phantoms regions news st).1[j]?).map
          (fun p => { p with id := none }) =
        some { wrapPhantom (news.get ⟨j, h⟩) with id := none } := by
    intro j h
    rw [phantomSetUpdate_fst]
    cases hfind : (refreshRegions phantoms regions).find?
        (fun q' => phantomEq q' (wrapPhantom (news.get ⟨j, h⟩))) with
    | some q =>
      rw [updateLoop_matched d r (refreshRegions phantoms regions) news st j h q hfind]
      rfl
    | none =>
      obtain ⟨i, hi, _⟩ :=
        updateLoop_unmatched d r (refreshRegions phantoms regions) news st j h hfind
      rw [hi]
      rfl
  refine ⟨?_, entry, ?_⟩
  · rw [phantomSetUpdate_fst]
    exact updateLoop_length d r (refreshRegions phantoms regions) news st
  · intro j h reg c l nav hsub
    rw [entry j h, hsub]
    rfl

/-- Witness for C10: a plain `sublime.Phantom` entry is stored wrapped with
default rendering flags and an assigned id field. -/
theorem c10_witness :
    ((phantomSetUpdate false (fun _ => Except.ok "h") [] []
        [PhantomInput.subl ⟨0, 1⟩ "x" 0 none] ⟨0, []⟩).1[0]?).map
        (fun p => { p with id := none }) =
      some ⟨⟨0, 1⟩, "x", 0, none, false, none, false, none⟩ :=
  (c10_update_transforms_input false (fun _ => Except.ok "h") [] []
      [PhantomInput.subl ⟨0, 1⟩ "x" 0 none] ⟨0, []⟩).2.2 0 (by decide)
    ⟨0, 1⟩ "x" 0 none rfl

/-- Claim C9: when assembling the final HTML fails, the public entry points
do not propagate the error — the display primitive receives the fixed
fallback document `IDK`: `show_popup` (popups enabled, visibility guard
passing) and `update_popup` hand `IDK` to the view, and `add_phantom`
issues its `view.add_phantom` call with the document `IDK`, still
returning the fresh id. -/
theorem c9_render_error_fallback (view : ViewState) (location : Int)
    (themeResult mdResult : Except Unit String) (md : Bool) (content : String)
    (r : Phantom → Except Unit String) (p : Phantom) (st : DisplayState) :
    (createHtml themeResult mdResult md content = Except.error () →
      can_show view location = true →
      show_popup false view location (createHtml themeResult mdResult md content) =
        some IDK) ∧
    (createHtml themeResult mdResult md content = Except.error () →
      update_popup false (createHtml themeResult mdResult md content) = some IDK) ∧
    (r p = Except.error () →
      add_phantom false r p st =
        (some st.next,
          ⟨st.next + 1, st.events ++ [DisplayEvent.create st.next p.region IDK]⟩)) := by
  refine ⟨?_, ?_, ?_⟩
  · intro herr hcs
    simp [show_popup, htmlOfExc, herr, hcs]
  · intro herr
    simp [update_popup, htmlOfExc, herr]
  · intro herr
    simp [add_phantom, htmlOf, htmlOfExc, herr]

/-- Witness for C9: a failing theme stage makes `show_popup` hand the
fallback document to the view. -/
theorem c9_witness :
    show_popup false ⟨10, 100, []⟩ 50
        (createHtml (Except.error ()) (Except.ok "x") true "y") = some IDK :=
  (c9_render_error_fallback ⟨10, 100, []⟩ 50 (Except.error ()) (Except.ok "x")
      true "y" (fun _ => Except.error ()) ⟨⟨0, 0⟩, "", 0, none, true, none, true, none⟩
      ⟨0, []⟩).1 rfl (by decide)

end Mdpopups
